import Mathlib

/-!
Verification development for the campus-energy ingestion and aggregation
pipeline (`src/lab_5.py`).  The Python source is shallowly embedded:

* character-level string helpers model the Python `str` operations the
  source relies on (`split`, `strip`, substring tests);
* `load_all_csvs`, `preprocess`, `calculate_daily_totals`,
  `calculate_weekly_aggregates` and `building_wise_summary` are translated
  from the functions of the same names in `lab_5.py`;
* pandas `NaN` / `NaT` values are modelled with `Option` (`none` is the
  missing sentinel), and kilowatt-hour quantities with `ℚ`;
* timestamps are modelled as integer seconds since 1970-01-01; calendar
  conversion uses the standard civil-from-days arithmetic.
-/

namespace Lab5

/-- Python-style split of a character list on a one-character separator:
`splitCh c l` never returns `[]`; splitting the empty list yields `[[]]`,
matching Python `"".split(sep) == [""]`. -/
def splitCh (c : Char) : List Char → List (List Char)
  | [] => [[]]
  | x :: xs =>
    let r := splitCh c xs
    if x == c then [] :: r
    else
      match r with
      | [] => [[x]]
      | h :: t => (x :: h) :: t

/-- Split a string on a one-character separator, Python `str.split(sep)`. -/
def pySplit (c : Char) (s : String) : List String :=
  (splitCh c s.toList).map String.mk

/-- Boolean test that `p` is a leading segment of `l`. -/
def leadsList (p l : List Char) : Bool :=
  match p, l with
  | [], _ => true
  | _ :: _, [] => false
  | x :: xs, y :: ys => x == y && leadsList xs ys

/-- Boolean test that `p` occurs contiguously inside `l`. -/
def isSubList (p : List Char) : List Char → Bool
  | [] => leadsList p []
  | y :: ys => leadsList p (y :: ys) || isSubList p ys

/-- Python `sub in s` substring containment. -/
def containsSub (s sub : String) : Bool :=
  isSubList sub.toList s.toList

/-- Python `s.strip(ch)`: remove every leading and trailing occurrence of
one character. -/
def stripCh (c : Char) (s : String) : String :=
  String.mk (((s.toList.dropWhile (· == c)).reverse.dropWhile (· == c)).reverse)

/-- Python `s.split(sep, 1)` specialised to one character: the part before
the first occurrence, and (when the separator occurs) the remainder. -/
def splitFirst (c : Char) : List Char → List Char × Option (List Char)
  | [] => ([], none)
  | x :: xs =>
    if x == c then ([], some xs)
    else
      let r := splitFirst c xs
      (x :: r.1, r.2)

/-- Digit sequence to a natural number; `none` unless the list is a
non-empty run of decimal digits. -/
def parseNatL (l : List Char) : Option Nat :=
  if l ≠ [] && l.all (·.isDigit) then
    some (l.foldl (fun a c => 10 * a + (c.toNat - 48)) 0)
  else none

/-- Value of a possibly-empty digit run (empty counts as zero); used for
the halves of a decimal literal such as `"3."` or `".5"`. -/
def digitsVal (l : List Char) : Nat :=
  l.foldl (fun a c => 10 * a + (c.toNat - 48)) 0

/-- Unsigned decimal literal to `ℚ`: either a digit run, or two digit runs
around one dot with at least one digit present. -/
def parseUnsigned (l : List Char) : Option ℚ :=
  match splitCh '.' l with
  | [a] => (parseNatL a).map (fun n => (n : ℚ))
  | [a, b] =>
    if (a ≠ [] || b ≠ []) && a.all (·.isDigit) && b.all (·.isDigit) then
      some ((digitsVal a : ℚ) + (digitsVal b : ℚ) / (10 : ℚ) ^ b.length)
    else none
  | _ => none

/-- Whitespace trim at both ends of a character list. -/
def trimL (l : List Char) : List Char :=
  ((l.dropWhile (·.isWhitespace)).reverse.dropWhile (·.isWhitespace)).reverse

/-- Model of `pd.to_numeric(·, errors="coerce")` on one cell: an optional
sign followed by a decimal literal parses to `some`; everything else is the
missing sentinel `none` (NaN), never an error and never zero. -/
def parseNum (s : String) : Option ℚ :=
  match trimL s.toList with
  | '-' :: rest => (parseUnsigned rest).map (fun q => -q)
  | '+' :: rest => parseUnsigned rest
  | l => parseUnsigned l

/-- Days since 1970-01-01 of a proleptic-Gregorian civil date
(Hinnant's `days_from_civil`). -/
def daysFromCivil (y m d : Int) : Int :=
  let y2 := if m ≤ 2 then y - 1 else y
  let era := Int.fdiv y2 400
  let yoe := y2 - era * 400
  let mp := if 2 < m then m - 3 else m + 9
  let doy := Int.fdiv (153 * mp + 2) 5 + d - 1
  let doe := yoe * 365 + Int.fdiv yoe 4 - Int.fdiv yoe 100 + doy
  era * 146097 + doe - 719468

/-- Parse `"YYYY-MM-DD"` to days since epoch, with range checks. -/
def parseDateL (l : List Char) : Option Int :=
  match splitCh '-' l with
  | [ys, ms, ds] =>
    match parseNatL ys, parseNatL ms, parseNatL ds with
    | some y, some m, some d =>
      if 1 ≤ m && m ≤ 12 && 1 ≤ d && d ≤ 31 then
        some (daysFromCivil (y : Int) (m : Int) (d : Int))
      else none
    | _, _, _ => none
  | _ => none

/-- Parse `"HH:MM"` or `"HH:MM:SS"` to seconds past midnight. -/
def parseTimeL (l : List Char) : Option Int :=
  match splitCh ':' l with
  | [hs, ms] =>
    match parseNatL hs, parseNatL ms with
    | some h, some m => if h ≤ 23 && m ≤ 59 then some ((h : Int) * 3600 + (m : Int) * 60) else none
    | _, _ => none
  | [hs, ms, ss] =>
    match parseNatL hs, parseNatL ms, parseNatL ss with
    | some h, some m, some s =>
      if h ≤ 23 && m ≤ 59 && s ≤ 59 then
        some ((h : Int) * 3600 + (m : Int) * 60 + (s : Int))
      else none
    | _, _, _ => none
  | _ => none

/-- Model of the ISO-format subset of `pd.to_datetime` on one textual cell:
`"YYYY-MM-DD"` optionally followed by `"T"` and a time of day, to seconds
since the epoch.  Anything else fails to parse. -/
def parseTimestamp (s : String) : Option Int :=
  match splitCh 'T' s.toList with
  | [d] => (parseDateL d).map (fun n => n * 86400)
  | [d, t] =>
    match parseDateL d, parseTimeL t with
    | some n, some sec => some (n * 86400 + sec)
    | _, _ => none
  | _ => none

/-- Code-point lexicographic strict order on character lists, the order
Python uses to compare `str` values (pandas sorts group keys with it). -/
def lexLt : List Char → List Char → Bool
  | [], [] => false
  | [], _ :: _ => true
  | _ :: _, [] => false
  | x :: xs, y :: ys =>
    if x == y then lexLt xs ys else decide (x.toNat < y.toNat)

/-- Non-strict string order used when listing group keys in sorted order. -/
def strLe (a b : String) : Bool :=
  a == b || lexLt a.toList b.toList

/-- Insert into a `le`-sorted list, keeping it sorted. -/
def insertLe (le : String → String → Bool) (x : String) : List String → List String
  | [] => [x]
  | y :: ys => if le x y then x :: y :: ys else y :: insertLe le x ys

/-- Insertion sort; computes the ascending ordering of the group keys. -/
def sortLe (le : String → String → Bool) : List String → List String
  | [] => []
  | x :: xs => insertLe le x (sortLe le xs)

/-! ## Ingestion (`load_all_csvs`, lines 9-58 of `lab_5.py`) -/

/-- Outcome of attempting to read one discovered CSV file.  `missing`
models `FileNotFoundError`; `failure` models any other read or parse
exception with its message; `frame` is the parsed result of
`pd.read_csv(..., on_bad_lines="skip")` — a header row of column names and
data rows whose cells are `Option String` (`none` is a NaN cell, e.g. a
field left empty by a short row). -/
inductive ReadResult where
  | missing : ReadResult
  | failure (msg : String) : ReadResult
  | frame (cols : List String) (rows : List (List (Option String))) : ReadResult
deriving DecidableEq, Repr

/-- One discovered file: `path` models `str(csv_path)`, `name` models
`csv_path.name`, `stem` models `csv_path.stem`. -/
structure RawFile where
  path : String
  name : String
  stem : String
  read : ReadResult
deriving DecidableEq, Repr

/-- Line 19: `name_parts = csv_path.stem.split("_")`. -/
def name_parts (stem : String) : List String :=
  pySplit '_' stem

/-- Line 20: `building = name_parts[0] if len(name_parts) > 0 else "Unknown"`. -/
def buildingOf (stem : String) : String :=
  if 0 < (name_parts stem).length then (name_parts stem).headD "Unknown" else "Unknown"

/-- Line 21: `month = name_parts[-1] if len(name_parts) > 1 else "Unknown"`. -/
def monthOf (stem : String) : String :=
  if 1 < (name_parts stem).length then (name_parts stem).getLastD "Unknown" else "Unknown"

/-- Python `str(cell)` applied to a possibly-NaN cell (`.astype(str)` turns
NaN into the text `"nan"`). -/
def cellAsStr (c : Option String) : String :=
  match c with
  | none => "nan"
  | some s => s

/-- Lines 28-35: the single-column repair.  When the frame's sole column
is named with both `"timestamp"` and `"kwh"` as substrings (and the outer
guard of line 28 holds), each cell is stripped of surrounding double
quotes and split on its first comma into the two columns `timestamp` and
`kwh`; otherwise the frame is unchanged. -/
def repairSingleColumn (cols : List String) (rows : List (List (Option String))) :
    List String × List (List (Option String)) :=
  if (!(cols.contains "timestamp") || !(cols.contains "kwh")) && cols.length == 1 then
    match cols with
    | [c] =>
      if containsSub c "timestamp" && containsSub c "kwh" then
        (["timestamp", "kwh"],
         rows.map (fun r =>
           let v := (stripCh '"' (cellAsStr (r.headD none))).toList
           let p := splitFirst ',' v
           [some (String.mk p.1), p.2.map String.mk]))
      else (cols, rows)
    | _ => (cols, rows)
  else (cols, rows)

/-- Position of the first column named `c` in a header, if any. -/
def idxOf (c : String) : List String → Option Nat
  | [] => none
  | x :: xs => if x == c then some 0 else (idxOf c xs).map (· + 1)

/-- Cell of column `c` in row `r` under header `cols`; `none` when the
column is absent from the header, the row is short, or the cell is NaN. -/
def getCellJ (cols : List String) (r : List (Option String)) (c : String) : Option String :=
  match idxOf c cols with
  | none => none
  | some i => (r.getD i none)

/-- One normalized reading as emitted by ingestion: the textual timestamp
cell (still unparsed; `none` is a NaN cell), the numeric `kwh` after the
line-39 `to_numeric` coercion (`none` is the missing sentinel), and the
filename-derived tags. -/
structure Reading where
  timestamp : Option String
  kwh : Option ℚ
  building : String
  month : String
deriving DecidableEq, Repr

/-- Lines 14-52, the body of the per-file loop.  Returns `some readings`
when the frame passes the line-42 validation gate (so the dataframe is
appended to `all_rows`, possibly with zero rows) and `none` otherwise,
together with the log lines appended for this file.  The line-38
`to_numeric` coercion only rewrites the `kwh` column, so it is applied at
the point the `kwh` cell is extracted. -/
def processFile (f : RawFile) : Option (List Reading) × List String :=
  match f.read with
  | .missing => (none, ["Missing file: " ++ f.path])
  | .failure m => (none, ["Error reading " ++ f.name ++ ": " ++ m])
  | .frame cols rows =>
    let rep := repairSingleColumn cols rows
    if rep.1.contains "timestamp" && rep.1.contains "kwh" then
      (some (rep.2.map (fun r =>
        { timestamp := getCellJ rep.1 r "timestamp"
          kwh := (getCellJ rep.1 r "kwh").bind parseNum
          building := buildingOf f.stem
          month := monthOf f.stem })), [])
    else (none, ["Invalid columns in " ++ f.name])

/-- The `for csv_path in ...` loop of lines 13-52: accumulates the list of
appended dataframes (`all_rows`) and the issue log, file by file. -/
def loadLoop : List RawFile → List (List Reading) × List String
  | [] => ([], [])
  | f :: fs =>
    let pr := processFile f
    let rest := loadLoop fs
    (pr.1.toList ++ rest.1, pr.2 ++ rest.2)

/-- Lines 9-58, `load_all_csvs`: run the loop, raise
`RuntimeError("No valid CSV files found in data directory.")` when no
dataframe was appended, and otherwise return the concatenation
(`pd.concat`) together with the issue log. -/
def load_all_csvs (files : List RawFile) : Except String (List Reading × List String) :=
  let acc := loadLoop files
  if acc.1.isEmpty then Except.error "No valid CSV files found in data directory."
  else Except.ok (acc.1.flatten, acc.2)

/-! ## Timestamp normalization (`preprocess`, lines 61-65) -/

/-- One row of the normalized, time-indexed dataset: `t` is the parsed
timestamp in seconds since the epoch (`none` models `NaT`). -/
structure Entry where
  t : Option Int
  kwh : Option ℚ
  building : String
  month : String
deriving DecidableEq, Repr

/-- Line 62, `pd.to_datetime(df["timestamp"])` with the default
`errors="raise"`: a NaN cell becomes `NaT` silently, a textual cell that
fails to parse raises, and otherwise the parsed time-point is kept. -/
def to_datetime : List (Option String) → Except String (List (Option Int))
  | [] => .ok []
  | c :: cs =>
    match c with
    | none => (to_datetime cs).map (fun ts => none :: ts)
    | some s =>
      match parseTimestamp s with
      | some t => (to_datetime cs).map (fun ts => some t :: ts)
      | none => .error ("could not parse timestamp: " ++ s)

/-- Sort key of `df.sort_values("timestamp")`: ascending time, `NaT` last. -/
def leTime (a b : Entry) : Bool :=
  match a.t, b.t with
  | none, none => true
  | none, some _ => false
  | some _, none => true
  | some x, some y => decide (x ≤ y)

/-- Stable insertion into a time-sorted entry list. -/
def insertEntry (x : Entry) : List Entry → List Entry
  | [] => [x]
  | y :: ys => if leTime x y then x :: y :: ys else y :: insertEntry x ys

/-- Stable sort of entries by timestamp ascending (`NaT` last). -/
def sortEntries : List Entry → List Entry
  | [] => []
  | x :: xs => insertEntry x (sortEntries xs)

/-- Lines 61-65, `preprocess`: parse every timestamp (propagating the
`to_datetime` exception), sort by the parsed time-point ascending, and use
it as the dataset's key. -/
def preprocess (rs : List Reading) : Except String (List Entry) :=
  match to_datetime (rs.map (·.timestamp)) with
  | .error m => .error m
  | .ok ts =>
    .ok (sortEntries (List.zipWith
      (fun (r : Reading) t => Entry.mk t r.kwh r.building r.month) rs ts))

/-! ## Aggregation engine (lines 67-81) -/

/-- Group keys of `df.groupby("building")`: the distinct building labels
in ascending order (pandas `groupby` sorts keys). -/
def buildingsOf (ds : List Entry) : List String :=
  sortLe strLe ((ds.map (·.building)).dedup)

/-- Rows of building `b`, the group `df.groupby("building")` forms. -/
def entriesOf (ds : List Entry) (b : String) : List Entry :=
  ds.filter (fun e => e.building == b)

/-- Time-stamped observations of building `b`: the rows with a real
(non-`NaT`) index, which populate the calendar-aligned bins of
`resample`. -/
def timedOf (ds : List Entry) (b : String) : List (Int × Option ℚ) :=
  (entriesOf ds b).filterMap (fun e => e.t.map (fun t => (t, e.kwh)))

/-- The `kwh` cells of building `b`'s rows whose index is `NaT`.  When any
exist, pandas's bin construction inserts a `NaT`-labelled bin at position
0 of the binner (`if ax.hasnans: binner.insert(0, NaT)`), and these rows
aggregate into it. -/
def natKwhOf (ds : List Entry) (b : String) : List (Option ℚ) :=
  ((entriesOf ds b).filter (fun e => e.t.isNone)).map (fun e => e.kwh)

/-- Calendar day (days since epoch) of a time-point in seconds. -/
def dayOf (t : Int) : Int :=
  Int.fdiv t 86400

/-- Pandas nan-skipping sum with `min_count=0`: the sum of the present
values, `0` when none are present. -/
def nsum (ks : List (Option ℚ)) : ℚ :=
  (ks.filterMap id).sum

/-- The consecutive integers `lo, lo+1, ..., lo+n-1`. -/
def intsFrom (lo : Int) : Nat → List Int
  | 0 => []
  | n + 1 => lo :: intsFrom (lo + 1) n

/-- The calendar-day bins of one group's timed rows for frequency `"D"`:
every calendar day from the group's first observed day to its last,
inclusive, each with the nan-skipping sum of the group's `kwh` values on
that day (`0` for a day with no observation — pandas zero-fills interior
gaps). -/
def dayBinsFor (es : List (Int × Option ℚ)) : List (Int × ℚ) :=
  match es.map (fun p => dayOf p.1) with
  | [] => []
  | d :: ds =>
    let lo := ds.foldl min d
    let hi := ds.foldl max d
    (intsFrom lo (hi - lo + 1).toNat).map (fun day =>
      (day, nsum ((es.filter (fun p => dayOf p.1 == day)).map (·.2))))

/-- The full `resample("D")` output rows of one group: when the group has
`NaT`-indexed rows, a `NaT`-labelled bin (label `none`) holding their
nan-skipping `kwh` sum comes first (pandas inserts it at position 0 of
the binner), followed by one bin per calendar day of the observed span. -/
def dailyRowsFor (nats : List (Option ℚ)) (es : List (Int × Option ℚ)) :
    List (Option Int × ℚ) :=
  (if nats.isEmpty then [] else [(none, nsum nats)])
    ++ (dayBinsFor es).map (fun p => (some p.1, p.2))

/-- One output row of `calculate_daily_totals` after `reset_index`:
(`building`, bin label as a day — `none` for the `NaT` bin, summed
`kwh`). -/
structure DailyRow where
  building : String
  day : Option Int
  kwh : ℚ
deriving DecidableEq, Repr

/-- Lines 67-69, `calculate_daily_totals`:
`df.groupby("building")["kwh"].resample("D").sum().reset_index()`. -/
def calculate_daily_totals (ds : List Entry) : List DailyRow :=
  (buildingsOf ds).flatMap (fun b =>
    (dailyRowsFor (natKwhOf ds b) (timedOf ds b)).map (fun p => DailyRow.mk b p.1 p.2))

/-- Weekday of a day index, Monday = 0 (day 0, 1970-01-01, is Thursday). -/
def wdMon (d : Int) : Int :=
  (d + 3).emod 7

/-- Bin label a day falls in under `resample("W-MON")`: pandas anchors
weekly bins so each bin ENDS on a Monday and is right-closed, labelling it
with that Monday — so the label of day `d` is the first Monday on or after
`d`, and the bin labelled `m` covers the days `m-6 .. m` (Tuesday through
Monday). -/
def wmonLabel (d : Int) : Int :=
  d + (7 - wdMon d).emod 7

/-- The weekly bins of one group's timed rows for frequency `"W-MON"`:
every Monday label from the label of the group's first observed day to the
label of its last, stepping a week, each with the nan-skipping sum over
its bin. -/
def weekBinsFor (es : List (Int × Option ℚ)) : List (Int × ℚ) :=
  match es.map (fun p => wmonLabel (dayOf p.1)) with
  | [] => []
  | w :: ws =>
    let lo := ws.foldl min w
    let hi := ws.foldl max w
    ((intsFrom 0 ((hi - lo).toNat / 7 + 1)).map (fun i => lo + 7 * i)).map (fun wk =>
      (wk, nsum ((es.filter (fun p => wmonLabel (dayOf p.1) == wk)).map (·.2))))

/-- The full `resample("W-MON")` output rows of one group: the
`NaT`-labelled bin of the group's `NaT`-indexed rows first when any exist,
then one bin per Monday label of the observed span. -/
def weeklyRowsFor (nats : List (Option ℚ)) (es : List (Int × Option ℚ)) :
    List (Option Int × ℚ) :=
  (if nats.isEmpty then [] else [(none, nsum nats)])
    ++ (weekBinsFor es).map (fun p => (some p.1, p.2))

/-- One output row of `calculate_weekly_aggregates` after `reset_index`:
(`building`, bin label as a day index of a Monday — `none` for the `NaT`
bin, summed `kwh`). -/
structure WeeklyRow where
  building : String
  week : Option Int
  kwh : ℚ
deriving DecidableEq, Repr

/-- Lines 72-74, `calculate_weekly_aggregates`:
`df.groupby("building")["kwh"].resample("W-MON").sum().reset_index()`. -/
def calculate_weekly_aggregates (ds : List Entry) : List WeeklyRow :=
  (buildingsOf ds).flatMap (fun b =>
    (weeklyRowsFor (natKwhOf ds b) (timedOf ds b)).map (fun p => WeeklyRow.mk b p.1 p.2))

/-- The present (non-NaN) `kwh` values of building `b`; the whole-period
`groupby("building")["kwh"]` group does not consult the time index, so
`NaT`-indexed rows are included. -/
def kwhValsOf (ds : List Entry) (b : String) : List ℚ :=
  (entriesOf ds b).filterMap (·.kwh)

/-- Pandas nan-skipping mean: `NaN` (here `none`) when no value is present. -/
def omean (ks : List ℚ) : Option ℚ :=
  match ks with
  | [] => none
  | _ => some (ks.sum / (ks.length : ℚ))

/-- Pandas nan-skipping min: `NaN` (here `none`) when no value is present. -/
def ominimum (ks : List ℚ) : Option ℚ :=
  match ks with
  | [] => none
  | k :: t => some (t.foldl min k)

/-- Pandas nan-skipping max: `NaN` (here `none`) when no value is present. -/
def omaximum (ks : List ℚ) : Option ℚ :=
  match ks with
  | [] => none
  | k :: t => some (t.foldl max k)

/-- One output row of `building_wise_summary` after the rename and
`reset_index`: `NaN` statistics are modelled as `none`. -/
structure SummaryRow where
  building : String
  mean : Option ℚ
  minv : Option ℚ
  maxv : Option ℚ
  total : ℚ
deriving DecidableEq, Repr

/-- Lines 77-81, `building_wise_summary`:
`df.groupby("building")["kwh"].agg(["mean", "min", "max", "sum"])` with
`sum` renamed to `total`; the nan-skipping `sum` of an all-missing group
is `0.0` while its `mean`, `min` and `max` are `NaN`. -/
def building_wise_summary (ds : List Entry) : List SummaryRow :=
  (buildingsOf ds).map (fun b =>
    let ks := kwhValsOf ds b
    SummaryRow.mk b (omean ks) (ominimum ks) (omaximum ks) ks.sum)

/-- The summary row of one building, looked up by label. -/
def summaryFor (ds : List Entry) (b : String) : Option SummaryRow :=
  (building_wise_summary ds).find? (fun r => r.building == b)

/-- The missing-as-zero variant of a dataset: every missing `kwh` becomes
`0`.  Used to state which aggregation outputs are (and are not) sensitive
to the difference between a missing value and a zero reading. -/
def zfill (ds : List Entry) : List Entry :=
  ds.map (fun e => { e with kwh := some (e.kwh.getD 0) })

/-! ## Concrete datasets used by the closed evaluation theorems -/

/-- A building with readings on 2025-01-01 and 2025-01-03 and none on
2025-01-02. -/
def exC1 : List Entry :=
  [⟨some (daysFromCivil 2025 1 1 * 86400), some 10, "admin", "2025-01"⟩,
   ⟨some (daysFromCivil 2025 1 3 * 86400), some 20, "admin", "2025-01"⟩]

/-- A building with a reading on Monday 2025-01-06 and one on the
following Sunday, 2025-01-12. -/
def exC2 : List Entry :=
  [⟨some (daysFromCivil 2025 1 6 * 86400), some 1, "admin", "2025-01"⟩,
   ⟨some (daysFromCivil 2025 1 12 * 86400), some 2, "admin", "2025-01"⟩]

/-- A dataset whose single row has an unparseable textual timestamp. -/
def exC3 : List Reading :=
  [⟨some "not-a-date", some 1, "admin", "2025-01"⟩]

/-- A discovered file that vanished before it could be read. -/
def exC6 : RawFile :=
  ⟨"data/gone_2025-01.csv", "gone_2025-01.csv", "gone_2025-01", .missing⟩

/-- A structurally valid file whose parsed frame has zero data rows. -/
def exC7 : RawFile :=
  ⟨"data/admin_2025-01.csv", "admin_2025-01.csv", "admin_2025-01",
   .frame ["timestamp", "kwh"] []⟩

/-- A dataset for building `admin` with one present, one missing and one
more present `kwh` value. -/
def exC4 : List Entry :=
  [⟨some (daysFromCivil 2025 1 1 * 86400), some 10, "admin", "2025-01"⟩,
   ⟨some (daysFromCivil 2025 1 2 * 86400), none, "admin", "2025-01"⟩,
   ⟨some (daysFromCivil 2025 1 3 * 86400), some 20, "admin", "2025-01"⟩]

/-- A one-column file whose column name has neither required substring. -/
def exC5 : RawFile :=
  ⟨"data/single_2025-01.csv", "single_2025-01.csv", "single_2025-01",
   .frame ["data"] [[some "x"]]⟩

/-- A well-formed two-column file whose stem has three underscore tokens;
the `kwh` cell is non-numeric so the parsed reading holds the sentinel. -/
def exC8 : RawFile :=
  ⟨"data/admin_block_2025-01.csv", "admin_block_2025-01.csv", "admin_block_2025-01",
   .frame ["timestamp", "kwh"] [[some "2025-01-01", some "N/A"]]⟩

/-- A building all of whose readings have the missing `kwh` sentinel. -/
def exC10 : List Entry :=
  [⟨some (daysFromCivil 2025 1 1 * 86400), none, "vacant", "2025-01"⟩,
   ⟨some (daysFromCivil 2025 1 2 * 86400), none, "vacant", "2025-01"⟩]

/-! ## Helper lemmas -/

theorem splitCh_ne_nil (c : Char) (l : List Char) : splitCh c l ≠ [] := by
  cases l with
  | nil => simp [splitCh]
  | cons x xs =>
    simp only [splitCh]
    split
    · simp
    · cases h : splitCh c xs with
      | nil => simp
      | cons h t => simp

theorem name_parts_ne_nil (stem : String) : name_parts stem ≠ [] := by
  simp only [name_parts, pySplit]
  intro h
  exact splitCh_ne_nil '_' stem.toList (List.map_eq_nil_iff.mp h)

theorem mem_insertLe (le : String → String → Bool) (x a : String) (l : List String) :
    a ∈ insertLe le x l ↔ a = x ∨ a ∈ l := by
  induction l with
  | nil => simp [insertLe]
  | cons y ys ih =>
    simp only [insertLe]
    split
    · simp [List.mem_cons]
    · simp [List.mem_cons, ih, or_left_comm]

theorem insertLe_perm (le : String → String → Bool) (x : String) (l : List String) :
    List.Perm (insertLe le x l) (x :: l) := by
  induction l with
  | nil => simp [insertLe]
  | cons y ys ih =>
    simp only [insertLe]
    split
    · exact List.Perm.refl _
    · exact List.Perm.trans (List.Perm.cons y ih) (List.Perm.swap x y ys)

theorem sortLe_perm (le : String → String → Bool) (l : List String) :
    List.Perm (sortLe le l) l := by
  induction l with
  | nil => exact List.Perm.refl _
  | cons x xs ih =>
    exact List.Perm.trans (insertLe_perm le x (sortLe le xs)) (List.Perm.cons x ih)

theorem mem_sortLe (le : String → String → Bool) (a : String) (l : List String) :
    a ∈ sortLe le l ↔ a ∈ l :=
  (sortLe_perm le l).mem_iff

theorem mem_buildingsOf (ds : List Entry) (b : String) :
    b ∈ buildingsOf ds ↔ ∃ e ∈ ds, e.building = b := by
  simp only [buildingsOf, mem_sortLe, List.mem_dedup, List.mem_map]

theorem nodup_buildingsOf (ds : List Entry) : (buildingsOf ds).Nodup :=
  ((sortLe_perm strLe _).nodup_iff).mpr (List.nodup_dedup _)

theorem foldl_min_le_init (l : List Int) (a : Int) : l.foldl min a ≤ a := by
  induction l generalizing a with
  | nil => simp
  | cons x xs ih => exact le_trans (ih (min a x)) (min_le_left a x)

theorem foldl_min_le_mem (l : List Int) (a x : Int) (hx : x ∈ l) : l.foldl min a ≤ x := by
  induction l generalizing a with
  | nil => simp at hx
  | cons y ys ih =>
    rcases List.mem_cons.mp hx with h | h
    · subst h
      exact le_trans (foldl_min_le_init ys (min a x)) (min_le_right a x)
    · exact ih (min a y) h

theorem foldl_min_attained (l : List Int) (a : Int) :
    l.foldl min a = a ∨ l.foldl min a ∈ l := by
  induction l generalizing a with
  | nil => simp
  | cons x xs ih =>
    rcases ih (min a x) with h | h
    · rcases min_cases a x with ⟨he, _⟩ | ⟨he, _⟩
      · left
        simpa [he] using h
      · right
        simp only [List.foldl_cons]
        rw [h, he]
        exact List.mem_cons_self x xs
    · right
      exact List.mem_cons_of_mem x h

theorem le_foldl_max_init (l : List Int) (a : Int) : a ≤ l.foldl max a := by
  induction l generalizing a with
  | nil => simp
  | cons x xs ih => exact le_trans (le_max_left a x) (ih (max a x))

theorem mem_le_foldl_max (l : List Int) (a x : Int) (hx : x ∈ l) : x ≤ l.foldl max a := by
  induction l generalizing a with
  | nil => simp at hx
  | cons y ys ih =>
    rcases List.mem_cons.mp hx with h | h
    · subst h
      exact le_trans (le_max_right a x) (le_foldl_max_init ys (max a x))
    · exact ih (max a y) h

theorem foldl_max_attained (l : List Int) (a : Int) :
    l.foldl max a = a ∨ l.foldl max a ∈ l := by
  induction l generalizing a with
  | nil => simp
  | cons x xs ih =>
    rcases ih (max a x) with h | h
    · rcases max_cases a x with ⟨he, _⟩ | ⟨he, _⟩
      · left
        simpa [he] using h
      · right
        simp only [List.foldl_cons]
        rw [h, he]
        exact List.mem_cons_self x xs
    · right
      exact List.mem_cons_of_mem x h

theorem mem_intsFrom (lo x : Int) (n : Nat) :
    x ∈ intsFrom lo n ↔ lo ≤ x ∧ x < lo + n := by
  induction n generalizing lo with
  | zero => simp [intsFrom]
  | succ m ih =>
    simp only [intsFrom, List.mem_cons, ih]
    omega

theorem nodup_intsFrom (lo : Int) (n : Nat) : (intsFrom lo n).Nodup := by
  induction n generalizing lo with
  | zero => simp [intsFrom]
  | succ m ih =>
    simp only [intsFrom, List.nodup_cons]
    refine ⟨fun h => ?_, ih (lo + 1)⟩
    have := (mem_intsFrom (lo + 1) lo m).mp h
    omega

theorem nsum_nil : nsum [] = 0 := rfl

theorem nsum_cons (x : Option ℚ) (l : List (Option ℚ)) :
    nsum (x :: l) = x.getD 0 + nsum l := by
  cases x with
  | none => simp [nsum]
  | some q => simp [nsum]

theorem sum_indicator_notmem (days : List Int) (x : Int) (c : ℚ) (hx : x ∉ days) :
    (days.map (fun d => if x = d then c else 0)).sum = 0 := by
  induction days with
  | nil => simp
  | cons d ds ih =>
    simp only [List.mem_cons, not_or] at hx
    simp [hx.1, ih hx.2]

theorem sum_indicator (days : List Int) (x : Int) (c : ℚ) (hnd : days.Nodup)
    (hx : x ∈ days) :
    (days.map (fun d => if x = d then c else 0)).sum = c := by
  induction days with
  | nil => simp at hx
  | cons d ds ih =>
    simp only [List.nodup_cons] at hnd
    rcases List.mem_cons.mp hx with h | h
    · subst h
      simp [sum_indicator_notmem ds x c hnd.1]
    · have hxd : x ≠ d := fun he => hnd.1 (he ▸ h)
      simp [hxd, ih hnd.2 h]

theorem sum_partition (es : List (Int × Option ℚ)) (key : Int → Int) (days : List Int)
    (hnd : days.Nodup) (hcov : ∀ p ∈ es, key p.1 ∈ days) :
    (days.map (fun d => nsum ((es.filter (fun p => key p.1 == d)).map (fun p => p.2)))).sum
      = nsum (es.map (fun p => p.2)) := by
  induction es with
  | nil =>
    simp only [List.filter_nil, List.map_nil, nsum_nil]
    simp
  | cons p ps ih =>
    have hcov' : ∀ q ∈ ps, key q.1 ∈ days := fun q hq => hcov q (List.mem_cons_of_mem p hq)
    have hstep : (days.map
        (fun d => nsum (((p :: ps).filter (fun q => key q.1 == d)).map (fun q => q.2))))
        = days.map (fun d => (if key p.1 = d then p.2.getD 0 else 0)
            + nsum ((ps.filter (fun q => key q.1 == d)).map (fun q => q.2))) := by
      refine List.map_congr_left (fun d _ => ?_)
      by_cases h : key p.1 = d
      · simp [List.filter_cons, h, nsum_cons]
      · simp [List.filter_cons, h]
    rw [hstep, List.sum_map_add, sum_indicator days (key p.1) (p.2.getD 0) hnd
      (hcov p (List.mem_cons_self p ps)), ih hcov', List.map_cons, nsum_cons]

theorem filter_flatMap_key {α : Type} (key : α → String) (bs : List String)
    (F : String → List α) (hnd : bs.Nodup) (hF : ∀ b x, x ∈ F b → key x = b)
    (b : String) :
    (bs.flatMap F).filter (fun x => key x == b) = if b ∈ bs then F b else [] := by
  induction bs with
  | nil => simp
  | cons b0 rest ih =>
    simp only [List.nodup_cons] at hnd
    rw [List.flatMap_cons, List.filter_append, ih hnd.2]
    by_cases h : b0 = b
    · subst h
      rw [List.filter_eq_self.mpr (fun x hx => by simp [hF b0 x hx]),
        if_neg hnd.1, if_pos (List.mem_cons_self b0 rest), List.append_nil]
    · rw [List.filter_eq_nil_iff.mpr (fun x hx => by simp [hF b0 x hx, h]),
        List.nil_append]
      by_cases hb : b ∈ rest
      · simp [hb, h]
      · simp [hb, h, Ne.symm h]

theorem length_filter_le_one {α β : Type} [BEq β] [LawfulBEq β] (key : α → β)
    (l : List α) (d : β) (hnd : (l.map key).Nodup) :
    (l.filter (fun x => key x == d)).length ≤ 1 := by
  induction l with
  | nil => simp
  | cons x xs ih =>
    simp only [List.map_cons, List.nodup_cons, List.mem_map] at hnd
    rw [List.filter_cons]
    by_cases h : key x = d
    · have : xs.filter (fun y => key y == d) = [] := by
        refine List.filter_eq_nil_iff.mpr (fun y hy => ?_)
        simp only [beq_iff_eq]
        intro he
        exact hnd.1 ⟨y, hy, by rw [he, h]⟩
      simp [h, this]
    · simpa [h] using ih hnd.2

theorem foldl_min_le_iff (d0 d : Int) (rest : List Int) :
    rest.foldl min d0 ≤ d ↔ ∃ x ∈ d0 :: rest, x ≤ d := by
  constructor
  · intro h
    rcases foldl_min_attained rest d0 with ha | ha
    · exact ⟨d0, List.mem_cons_self d0 rest, ha ▸ h⟩
    · exact ⟨rest.foldl min d0, List.mem_cons_of_mem d0 ha, h⟩
  · rintro ⟨x, hx, hxd⟩
    rcases List.mem_cons.mp hx with h | h
    · exact le_trans (h ▸ foldl_min_le_init rest d0) hxd
    · exact le_trans (foldl_min_le_mem rest d0 x h) hxd

theorem le_foldl_max_iff (d0 d : Int) (rest : List Int) :
    d ≤ rest.foldl max d0 ↔ ∃ x ∈ d0 :: rest, d ≤ x := by
  constructor
  · intro h
    rcases foldl_max_attained rest d0 with ha | ha
    · exact ⟨d0, List.mem_cons_self d0 rest, ha ▸ h⟩
    · exact ⟨rest.foldl max d0, List.mem_cons_of_mem d0 ha, h⟩
  · rintro ⟨x, hx, hxd⟩
    rcases List.mem_cons.mp hx with h | h
    · exact le_trans hxd (h ▸ le_foldl_max_init rest d0)
    · exact le_trans hxd (mem_le_foldl_max rest d0 x h)

theorem mem_dayBinsFor_iff (es : List (Int × Option ℚ)) (d : Int) :
    (∃ v, (d, v) ∈ dayBinsFor es) ↔
      ((∃ p ∈ es, dayOf p.1 ≤ d) ∧ (∃ p ∈ es, d ≤ dayOf p.1)) := by
  cases es with
  | nil => simp [dayBinsFor]
  | cons p ps =>
    have hredL : ∀ v, ((d, v) ∈ dayBinsFor (p :: ps) ↔
        ∃ day ∈ intsFrom ((ps.map (fun q => dayOf q.1)).foldl min (dayOf p.1))
          (((ps.map (fun q => dayOf q.1)).foldl max (dayOf p.1)
            - (ps.map (fun q => dayOf q.1)).foldl min (dayOf p.1) + 1).toNat),
          (day, nsum ((((p :: ps).filter (fun q => dayOf q.1 == day)).map (fun q => q.2)))) = (d, v)) := by
      intro v
      simp [dayBinsFor, List.mem_map]
    set lo := (ps.map (fun q => dayOf q.1)).foldl min (dayOf p.1) with hlo
    set hi := (ps.map (fun q => dayOf q.1)).foldl max (dayOf p.1) with hhi
    have hlohi : lo ≤ hi :=
      le_trans (foldl_min_le_init _ _) (le_foldl_max_init _ _)
    constructor
    · rintro ⟨v, hv⟩
      rcases (hredL v).mp hv with ⟨day, hday, heq⟩
      have hd : day = d := congrArg Prod.fst heq
      subst hd
      have hb := (mem_intsFrom lo day _).mp hday
      have h1 : lo ≤ day := hb.1
      have h2 : day ≤ hi := by omega
      rcases (foldl_min_le_iff (dayOf p.1) day (ps.map (fun q => dayOf q.1))).mp h1 with
        ⟨x, hx, hxle⟩
      rcases (le_foldl_max_iff (dayOf p.1) day (ps.map (fun q => dayOf q.1))).mp h2 with
        ⟨y, hy, hyle⟩
      constructor
      · rcases List.mem_cons.mp hx with h | h
        · exact ⟨p, List.mem_cons_self p ps, h ▸ hxle⟩
        · rcases List.mem_map.mp h with ⟨q, hq, hqx⟩
          exact ⟨q, List.mem_cons_of_mem p hq, hqx ▸ hxle⟩
      · rcases List.mem_cons.mp hy with h | h
        · exact ⟨p, List.mem_cons_self p ps, h ▸ hyle⟩
        · rcases List.mem_map.mp h with ⟨q, hq, hqy⟩
          exact ⟨q, List.mem_cons_of_mem p hq, hqy ▸ hyle⟩
    · rintro ⟨⟨p1, hp1, hle1⟩, ⟨p2, hp2, hle2⟩⟩
      have h1 : lo ≤ d := by
        refine (foldl_min_le_iff (dayOf p.1) d (ps.map (fun q => dayOf q.1))).mpr ?_
        rcases List.mem_cons.mp hp1 with h | h
        · exact ⟨dayOf p.1, List.mem_cons_self _ _, h ▸ hle1⟩
        · exact ⟨dayOf p1.1, List.mem_cons_of_mem _ (List.mem_map.mpr ⟨p1, h, rfl⟩), hle1⟩
      have h2 : d ≤ hi := by
        refine (le_foldl_max_iff (dayOf p.1) d (ps.map (fun q => dayOf q.1))).mpr ?_
        rcases List.mem_cons.mp hp2 with h | h
        · exact ⟨dayOf p.1, List.mem_cons_self _ _, h ▸ hle2⟩
        · exact ⟨dayOf p2.1, List.mem_cons_of_mem _ (List.mem_map.mpr ⟨p2, h, rfl⟩), hle2⟩
      refine ⟨nsum ((((p :: ps).filter (fun q => dayOf q.1 == d)).map (fun q => q.2))), ?_⟩
      refine (hredL _).mpr ⟨d, (mem_intsFrom lo d _).mpr ⟨h1, by omega⟩, rfl⟩

theorem dayBinsFor_val (es : List (Int × Option ℚ)) (d : Int) (v : ℚ)
    (h : (d, v) ∈ dayBinsFor es) :
    v = nsum ((es.filter (fun p => dayOf p.1 == d)).map (fun p => p.2)) := by
  cases es with
  | nil => simp [dayBinsFor] at h
  | cons p ps =>
    simp only [dayBinsFor, List.map_cons, List.mem_map] at h
    rcases h with ⟨day, _, heq⟩
    have hd : day = d := congrArg Prod.fst heq
    have hv := congrArg Prod.snd heq
    simp only at hv
    rw [← hv, hd]

theorem nodup_dayBinsFor_fst (es : List (Int × Option ℚ)) :
    ((dayBinsFor es).map (fun r => r.1)).Nodup := by
  cases es with
  | nil => simp [dayBinsFor]
  | cons p ps =>
    simp only [dayBinsFor, List.map_cons, List.map_map]
    have : ((fun r => r.1) ∘ fun day =>
        ((day : Int), nsum (((p :: ps).filter (fun q => dayOf q.1 == day)).map (fun q => q.2)))) = id := by
      funext day
      rfl
    rw [this, List.map_id]
    exact nodup_intsFrom _ _

theorem dayBinsFor_sum (es : List (Int × Option ℚ)) :
    ((dayBinsFor es).map (fun r => r.2)).sum = nsum (es.map (fun p => p.2)) := by
  cases es with
  | nil => simp [dayBinsFor, nsum]
  | cons p ps =>
    simp only [dayBinsFor, List.map_cons, List.map_map]
    have hcomp : ((fun r : Int × ℚ => r.2) ∘ fun day =>
        ((day : Int), nsum (((p :: ps).filter (fun q => dayOf q.1 == day)).map (fun q => q.2))))
        = fun day => nsum (((p :: ps).filter (fun q => dayOf q.1 == day)).map (fun q => q.2)) := by
      funext day
      rfl
    rw [hcomp]
    refine sum_partition (p :: ps) dayOf _ (nodup_intsFrom _ _) ?_
    intro q hq
    refine (mem_intsFrom _ _ _).mpr ?_
    have h1 : (ps.map (fun r => dayOf r.1)).foldl min (dayOf p.1) ≤ dayOf q.1 := by
      refine (foldl_min_le_iff _ _ _).mpr ?_
      rcases List.mem_cons.mp hq with h | h
      · exact ⟨dayOf p.1, List.mem_cons_self _ _, by rw [h]⟩
      · exact ⟨dayOf q.1, List.mem_cons_of_mem _ (List.mem_map.mpr ⟨q, h, rfl⟩), le_refl _⟩
    have h2 : dayOf q.1 ≤ (ps.map (fun r => dayOf r.1)).foldl max (dayOf p.1) := by
      refine (le_foldl_max_iff _ _ _).mpr ?_
      rcases List.mem_cons.mp hq with h | h
      · exact ⟨dayOf p.1, List.mem_cons_self _ _, by rw [h]⟩
      · exact ⟨dayOf q.1, List.mem_cons_of_mem _ (List.mem_map.mpr ⟨q, h, rfl⟩), le_refl _⟩
    omega

theorem mem_timedOf (ds : List Entry) (b : String) (p : Int × Option ℚ) :
    p ∈ timedOf ds b ↔ ∃ e ∈ ds, e.building = b ∧ e.t = some p.1 ∧ e.kwh = p.2 := by
  simp only [timedOf, entriesOf, List.mem_filterMap, List.mem_filter, beq_iff_eq,
    Option.map_eq_some']
  constructor
  · rintro ⟨e, ⟨he, hb⟩, t, ht, hp⟩
    exact ⟨e, he, hb, by rw [ht, ← hp], by rw [← hp]⟩
  · rintro ⟨e, he, hb, ht, hk⟩
    exact ⟨e, ⟨he, hb⟩, p.1, ht, by rw [hk]⟩

theorem mem_some_dailyRowsFor (nats : List (Option ℚ)) (es : List (Int × Option ℚ))
    (d : Int) (v : ℚ) :
    (some d, v) ∈ dailyRowsFor nats es ↔ (d, v) ∈ dayBinsFor es := by
  unfold dailyRowsFor
  rw [List.mem_append]
  constructor
  · rintro (h | h)
    · split at h
      · simp at h
      · simp at h
    · obtain ⟨p, hp, he⟩ := List.mem_map.mp h
      have h1 : p.1 = d := by
        have := congrArg Prod.fst he
        simpa using this
      have h2 : p.2 = v := congrArg Prod.snd he
      rw [← h1, ← h2]
      exact hp
  · intro h
    exact Or.inr (List.mem_map.mpr ⟨(d, v), h, rfl⟩)

theorem nodup_dailyRowsFor_fst (nats : List (Option ℚ)) (es : List (Int × Option ℚ)) :
    ((dailyRowsFor nats es).map (fun r => r.1)).Nodup := by
  unfold dailyRowsFor
  rw [List.map_append, List.map_map]
  have hsome : ((fun r : Option Int × ℚ => r.1) ∘ fun p : Int × ℚ => (some p.1, p.2))
      = (fun x => some x) ∘ (fun p : Int × ℚ => p.1) := rfl
  rw [hsome, ← List.map_map]
  have hnd : ((dayBinsFor es).map (fun p : Int × ℚ => p.1)).map (fun x => some x)
      |>.Nodup := (List.nodup_map_iff_inj_on (nodup_dayBinsFor_fst es)).mpr
        (fun x _ y _ h => Option.some.inj h)
  split
  · simpa using hnd
  · simp only [List.map_cons, List.map_nil, List.singleton_append, List.nodup_cons]
    refine ⟨fun hmem => ?_, by simpa using hnd⟩
    obtain ⟨x, _, hx⟩ := List.mem_map.mp hmem
    cases hx

theorem dailyRowsFor_sum (nats : List (Option ℚ)) (es : List (Int × Option ℚ)) :
    ((dailyRowsFor nats es).map (fun r => r.2)).sum
      = nsum nats + ((dayBinsFor es).map (fun r => r.2)).sum := by
  unfold dailyRowsFor
  rw [List.map_append, List.sum_append, List.map_map]
  have hcomp : ((fun r : Option Int × ℚ => r.2) ∘ fun p : Int × ℚ => (some p.1, p.2))
      = fun p : Int × ℚ => p.2 := rfl
  rw [hcomp]
  split
  · rename_i hemp
    rw [List.isEmpty_iff.mp hemp]
    simp [nsum]
  · simp

theorem mem_daily (ds : List Entry) (r : DailyRow) :
    r ∈ calculate_daily_totals ds ↔
      r.building ∈ buildingsOf ds
        ∧ (r.day, r.kwh) ∈ dailyRowsFor (natKwhOf ds r.building) (timedOf ds r.building) := by
  simp only [calculate_daily_totals, List.mem_flatMap, List.mem_map]
  constructor
  · rintro ⟨b, hb, q, hq, hr⟩
    cases r
    cases hr
    exact ⟨hb, hq⟩
  · rintro ⟨hb, hq⟩
    exact ⟨r.building, hb, (r.day, r.kwh), hq, rfl⟩

theorem find?_map_label (bs : List String) (mk : String → SummaryRow)
    (hmk : ∀ b, (mk b).building = b) (b : String) (hb : b ∈ bs) :
    (bs.map mk).find? (fun r => r.building == b) = some (mk b) := by
  induction bs with
  | nil => simp at hb
  | cons b0 rest ih =>
    rcases List.mem_cons.mp hb with h | h
    · subst h
      simp [List.find?_cons, hmk]
    · by_cases he : b0 = b
      · subst he
        simp [List.find?_cons, hmk]
      · rw [List.map_cons, List.find?_cons]
        have : ((mk b0).building == b) = false := by
          simp [hmk, he]
        rw [this]
        exact ih h

theorem summaryFor_eq (ds : List Entry) (b : String) (hb : b ∈ buildingsOf ds) :
    summaryFor ds b = some (SummaryRow.mk b (omean (kwhValsOf ds b))
      (ominimum (kwhValsOf ds b)) (omaximum (kwhValsOf ds b)) (kwhValsOf ds b).sum) := by
  unfold summaryFor building_wise_summary
  exact find?_map_label (buildingsOf ds)
    (fun b' => SummaryRow.mk b' (omean (kwhValsOf ds b')) (ominimum (kwhValsOf ds b'))
      (omaximum (kwhValsOf ds b')) (kwhValsOf ds b').sum)
    (fun _ => rfl) b hb

theorem nsum_nat_timed_split (es : List Entry) :
    nsum (((es.filter (fun e => e.t.isNone)).map (fun e => e.kwh)))
      + nsum ((es.filterMap (fun e => e.t.map (fun t => (t, e.kwh)))).map (fun p => p.2))
      = (es.filterMap (fun e => e.kwh)).sum := by
  induction es with
  | nil => simp [nsum]
  | cons e es ih =>
    cases ht : e.t <;> cases hk : e.kwh <;>
      simp [List.filter_cons, List.filterMap_cons, ht, hk, nsum_cons] <;>
      linarith [ih]

theorem nsum_map_zfill (l : List (Option ℚ)) :
    nsum (l.map (fun o => some (o.getD 0))) = nsum l := by
  induction l with
  | nil => rfl
  | cons o l ih =>
    rw [List.map_cons, nsum_cons, nsum_cons, ih]
    cases o <;> simp

theorem zfill_buildingsOf (ds : List Entry) : buildingsOf (zfill ds) = buildingsOf ds := by
  unfold buildingsOf zfill
  rw [List.map_map]
  rfl

theorem zfill_timedOf (ds : List Entry) (b : String) :
    timedOf (zfill ds) b = (timedOf ds b).map (fun p => (p.1, some (p.2.getD 0))) := by
  induction ds with
  | nil => rfl
  | cons e es ih =>
    simp only [timedOf, entriesOf, zfill, List.map_cons, List.filter_cons] at ih ⊢
    by_cases hb : e.building == b
    · simp only [hb, if_pos]
      rw [List.filterMap_cons, List.filterMap_cons]
      cases ht : e.t with
      | none => simpa using ih
      | some t =>
        simp only [Option.map_some']
        rw [List.map_cons]
        simpa using ih
    · simp only [hb]
      simpa using ih

theorem filter_map_pair (k : Int → Int) (day : Int) (l : List (Int × Option ℚ)) :
    List.filter (fun q => k q.1 == day) (l.map (fun q => (q.1, some (q.2.getD 0))))
      = (l.filter (fun q => k q.1 == day)).map (fun q => (q.1, some (q.2.getD 0))) := by
  induction l with
  | nil => rfl
  | cons q l ih =>
    rw [List.map_cons, List.filter_cons, List.filter_cons]
    by_cases h : k q.1 == day
    · simp only [h, if_pos]
      rw [List.map_cons, ih]
    · simp only [h]
      simpa using ih

theorem nsum_snd_zfill (l : List (Int × Option ℚ)) :
    nsum (((l.map (fun q => (q.1, some (q.2.getD 0)))).map (fun x => x.2)))
      = nsum (l.map (fun x => x.2)) := by
  rw [List.map_map, ← nsum_map_zfill (l.map (fun x => x.2)), List.map_map]
  rfl

theorem zfill_dayBinsFor (es : List (Int × Option ℚ)) :
    dayBinsFor (es.map (fun p => (p.1, some (p.2.getD 0)))) = dayBinsFor es := by
  cases es with
  | nil => rfl
  | cons p ps =>
    simp only [dayBinsFor, List.map_cons, List.map_map]
    have h1 : (ps.map ((fun q : Int × Option ℚ => dayOf q.1) ∘ fun p => (p.1, some (p.2.getD 0))))
        = ps.map (fun q => dayOf q.1) := rfl
    rw [h1]
    refine List.map_congr_left (fun day _ => ?_)
    rw [show ((p.1, some (p.2.getD 0)) ::
          List.map (fun q : Int × Option ℚ => (q.1, some (q.2.getD 0))) ps)
        = List.map (fun q : Int × Option ℚ => (q.1, some (q.2.getD 0))) (p :: ps) from rfl]
    rw [filter_map_pair dayOf, nsum_snd_zfill]

theorem zfill_weekBinsFor (es : List (Int × Option ℚ)) :
    weekBinsFor (es.map (fun p => (p.1, some (p.2.getD 0)))) = weekBinsFor es := by
  cases es with
  | nil => rfl
  | cons p ps =>
    simp only [weekBinsFor, List.map_cons, List.map_map]
    have h1 : (ps.map ((fun q : Int × Option ℚ => wmonLabel (dayOf q.1)) ∘ fun p => (p.1, some (p.2.getD 0))))
        = ps.map (fun q => wmonLabel (dayOf q.1)) := rfl
    rw [h1]
    refine List.map_congr_left (fun i _ => ?_)
    simp only [Function.comp_apply]
    rw [show ((p.1, some (p.2.getD 0)) ::
          List.map (fun q : Int × Option ℚ => (q.1, some (q.2.getD 0))) ps)
        = List.map (fun q : Int × Option ℚ => (q.1, some (q.2.getD 0))) (p :: ps) from rfl]
    rw [filter_map_pair (fun t => wmonLabel (dayOf t)), nsum_snd_zfill]

theorem zfill_entriesOf (ds : List Entry) (b : String) :
    entriesOf (zfill ds) b
      = (entriesOf ds b).map (fun e => { e with kwh := some (e.kwh.getD 0) }) := by
  unfold entriesOf zfill
  rw [List.filter_map]
  rfl

theorem zfill_natKwhOf (ds : List Entry) (b : String) :
    natKwhOf (zfill ds) b = (natKwhOf ds b).map (fun o => some (o.getD 0)) := by
  unfold natKwhOf
  rw [zfill_entriesOf, List.filter_map, List.map_map, List.map_map]
  rfl

theorem zfill_dailyRowsFor (ds : List Entry) (b : String) :
    dailyRowsFor (natKwhOf (zfill ds) b) (timedOf (zfill ds) b)
      = dailyRowsFor (natKwhOf ds b) (timedOf ds b) := by
  rw [zfill_timedOf, zfill_natKwhOf]
  unfold dailyRowsFor
  rw [zfill_dayBinsFor]
  congr 1
  cases natKwhOf ds b with
  | nil => rfl
  | cons o l =>
    have h := nsum_map_zfill (o :: l)
    simp only [List.map_cons] at h
    simp [h]

theorem zfill_weeklyRowsFor (ds : List Entry) (b : String) :
    weeklyRowsFor (natKwhOf (zfill ds) b) (timedOf (zfill ds) b)
      = weeklyRowsFor (natKwhOf ds b) (timedOf ds b) := by
  rw [zfill_timedOf, zfill_natKwhOf]
  unfold weeklyRowsFor
  rw [zfill_weekBinsFor]
  congr 1
  cases natKwhOf ds b with
  | nil => rfl
  | cons o l =>
    have h := nsum_map_zfill (o :: l)
    simp only [List.map_cons] at h
    simp [h]

theorem zfill_daily (ds : List Entry) :
    calculate_daily_totals (zfill ds) = calculate_daily_totals ds := by
  unfold calculate_daily_totals
  rw [zfill_buildingsOf]
  congr 1
  funext b
  rw [zfill_dailyRowsFor]

theorem zfill_weekly (ds : List Entry) :
    calculate_weekly_aggregates (zfill ds) = calculate_weekly_aggregates ds := by
  unfold calculate_weekly_aggregates
  rw [zfill_buildingsOf]
  congr 1
  funext b
  rw [zfill_weeklyRowsFor]

theorem to_datetime_error_iff (cs : List (Option String)) :
    (∃ m, to_datetime cs = Except.error m) ↔
      (∃ c ∈ cs, ∃ s, c = some s ∧ parseTimestamp s = none) := by
  induction cs with
  | nil => simp [to_datetime]
  | cons c cs ih =>
    cases c with
    | none =>
      simp only [to_datetime, List.mem_cons]
      constructor
      · rintro ⟨m, hm⟩
        cases h : to_datetime cs with
        | error m' =>
          obtain ⟨x, hx, hs⟩ := ih.mp ⟨m', h⟩
          exact ⟨x, Or.inr hx, hs⟩
        | ok v =>
          rw [h] at hm
          simp [Except.map] at hm
      · rintro ⟨x, hx, s, hxs, hps⟩
        rcases hx with h | h
        · rw [h] at hxs
          cases hxs
        · obtain ⟨m, hm⟩ := ih.mpr ⟨x, h, s, hxs, hps⟩
          exact ⟨m, by rw [hm]; rfl⟩
    | some s =>
      cases hp : parseTimestamp s with
      | none =>
        simp only [to_datetime, hp, List.mem_cons]
        exact ⟨fun _ => ⟨some s, Or.inl rfl, s, rfl, hp⟩, fun _ => ⟨_, rfl⟩⟩
      | some t =>
        simp only [to_datetime, hp, List.mem_cons]
        constructor
        · rintro ⟨m, hm⟩
          cases h : to_datetime cs with
          | error m' =>
            obtain ⟨x, hx, hss⟩ := ih.mp ⟨m', h⟩
            exact ⟨x, Or.inr hx, hss⟩
          | ok v =>
            rw [h] at hm
            simp [Except.map] at hm
        · rintro ⟨x, hx, s', hxs, hps⟩
          rcases hx with h | h
          · rw [h] at hxs
            injection hxs with hss
            rw [hss] at hp
            rw [hp] at hps
            cases hps
          · obtain ⟨m, hm⟩ := ih.mpr ⟨x, h, s', hxs, hps⟩
            exact ⟨m, by rw [hm]; rfl⟩

theorem loadLoop_nil_iff (fs : List RawFile) :
    (loadLoop fs).1 = [] ↔ ∀ f ∈ fs, (processFile f).1 = none := by
  induction fs with
  | nil => simp [loadLoop]
  | cons f fs ih =>
    simp only [loadLoop, List.append_eq_nil, List.mem_cons]
    constructor
    · rintro ⟨h1, h2⟩
      intro g hg
      rcases hg with h | h
      · subst h
        cases hpf : (processFile g).1 with
        | none => rfl
        | some d =>
          rw [hpf] at h1
          cases h1
      · exact ih.mp h2 g h
    · intro h
      refine ⟨?_, ih.mpr (fun g hg => h g (Or.inr hg))⟩
      rw [h f (Or.inl rfl)]
      rfl

theorem processFile_bad (f : RawFile) (msg : String)
    (h : (f.read = .missing ∧ msg = "Missing file: " ++ f.path) ∨
         (∃ m, f.read = .failure m ∧ msg = "Error reading " ++ f.name ++ ": " ++ m) ∨
         (∃ cols rows, f.read = .frame cols rows ∧
            ((repairSingleColumn cols rows).1.contains "timestamp"
              && (repairSingleColumn cols rows).1.contains "kwh") = false ∧
            msg = "Invalid columns in " ++ f.name)) :
    processFile f = (none, [msg]) := by
  rcases h with ⟨hm, hmsg⟩ | ⟨m, hm, hmsg⟩ | ⟨cols, rows, hm, hcond, hmsg⟩
  · unfold processFile
    rw [hm, hmsg]
  · unfold processFile
    rw [hm, hmsg]
  · unfold processFile
    rw [hm, hmsg]
    simp only [hcond]
    rfl

theorem mem_loadLoop_good (fs : List RawFile) (g : RawFile) (d : List Reading)
    (hg : g ∈ fs) (hd : (processFile g).1 = some d) : d ∈ (loadLoop fs).1 := by
  induction fs with
  | nil => simp at hg
  | cons f fs ih =>
    simp only [loadLoop]
    rcases List.mem_cons.mp hg with h | h
    · subst h
      rw [hd]
      exact List.mem_append_left _ (List.mem_cons_self d [])
    · exact List.mem_append_right _ (ih h)

theorem repair_no_trigger (c : String) (rows : List (List (Option String)))
    (hb : (containsSub c "timestamp" && containsSub c "kwh") = false) :
    repairSingleColumn [c] rows = ([c], rows) := by
  unfold repairSingleColumn
  split
  · simp [hb]
  · rfl

theorem repair_trigger (c : String) (rows : List (List (Option String)))
    (hts : containsSub c "timestamp" = true) (hk : containsSub c "kwh" = true) :
    repairSingleColumn [c] rows
      = (["timestamp", "kwh"], rows.map (fun r =>
          [some (String.mk (splitFirst ',' (stripCh '"' (cellAsStr (r.headD none))).toList).1),
           ((splitFirst ',' (stripCh '"' (cellAsStr (r.headD none))).toList).2).map String.mk]))
    ∧ c ≠ "timestamp" ∧ c ≠ "kwh" := by
  have hc1 : c ≠ "timestamp" := by
    intro he
    rw [he] at hk
    exact absurd hk (by decide)
  have hc2 : c ≠ "kwh" := by
    intro he
    rw [he] at hts
    exact absurd hts (by decide)
  have hbeq1 : ("timestamp" == c) = false := beq_eq_false_iff_ne.mpr (Ne.symm hc1)
  have hbeq2 : ("kwh" == c) = false := beq_eq_false_iff_ne.mpr (Ne.symm hc2)
  refine ⟨?_, hc1, hc2⟩
  unfold repairSingleColumn
  simp [List.contains_cons, hbeq1, hbeq2, hts, hk]
  intro he
  exact absurd he.symm hc1

theorem repair_trigger_iff (cols : List String) (rows : List (List (Option String))) :
    repairSingleColumn cols rows ≠ (cols, rows) ↔
      ∃ c, cols = [c] ∧ containsSub c "timestamp" = true ∧ containsSub c "kwh" = true
        ∧ "timestamp" ∉ cols ∧ "kwh" ∉ cols := by
  match cols with
  | [] =>
    constructor
    · intro h
      exact absurd (by unfold repairSingleColumn; simp) h
    · rintro ⟨c, hc, _⟩
      cases hc
  | [c] =>
    by_cases hts : containsSub c "timestamp" = true
    · by_cases hk : containsSub c "kwh" = true
      · obtain ⟨hres, hc1, hc2⟩ := repair_trigger c rows hts hk
        constructor
        · intro _
          refine ⟨c, rfl, hts, hk, ?_, ?_⟩
          · simp [Ne.symm hc1, hc1]
          · simp [Ne.symm hc2, hc2]
        · intro _
          rw [hres]
          intro he
          have := congrArg (fun p => p.1.length) he
          simp at this
      · have hb : (containsSub c "timestamp" && containsSub c "kwh") = false := by
          simp [Bool.not_eq_true] at hk
          simp [hk]
        rw [repair_no_trigger c rows hb]
        constructor
        · intro h
          exact absurd rfl h
        · rintro ⟨c', hc', _, hk', _⟩
          injection hc' with he
          rw [← he] at hk'
          exact (hk (by simpa using hk')).elim
    · have hb : (containsSub c "timestamp" && containsSub c "kwh") = false := by
        simp [Bool.not_eq_true] at hts
        simp [hts]
      rw [repair_no_trigger c rows hb]
      constructor
      · intro h
        exact absurd rfl h
      · rintro ⟨c', hc', hts', _⟩
        injection hc' with he
        rw [← he] at hts'
        exact (hts (by simpa using hts')).elim
  | c1 :: c2 :: rest =>
    have hid : repairSingleColumn (c1 :: c2 :: rest) rows = (c1 :: c2 :: rest, rows) := by
      unfold repairSingleColumn
      have : ((c1 :: c2 :: rest).length == 1) = false := by
        simp [List.length_cons]
      rw [this]
      simp
    rw [hid]
    constructor
    · intro h
      exact absurd rfl h
    · rintro ⟨c, hc, _⟩
      cases hc

/-! ## Claim theorems -/

/-- C1 (counterexample): the claim says a (building, day) pair with zero
underlying readings never yields an output row.  In `exC1`, building
`admin` has readings only on 2025-01-01 and 2025-01-03, yet the daily
totals contain a row for 2025-01-02 with sum `0` — `resample("D")`
zero-fills interior days of the group's span. -/
theorem c1_zero_filled_day_counterexample :
    DailyRow.mk "admin" (some (daysFromCivil 2025 1 2)) 0 ∈ calculate_daily_totals exC1
    ∧ exC1.all (fun e => !(e.t.map dayOf == some (daysFromCivil 2025 1 2))) = true := by
  decide

/-- C1 (amended): `calculate_daily_totals` emits a row for building `b`
and day `d` exactly when `b` has a timestamped reading on some day `≤ d`
and one on some day `≥ d` — one row per day of the building's contiguous
span from first to last reading day, zero-filled inside the span and
absent outside it — and never more than one row per (building, day). -/
theorem c1_daily_span_characterization (ds : List Entry) (b : String) (d : Int) :
    ((∃ v, DailyRow.mk b (some d) v ∈ calculate_daily_totals ds) ↔
      ((∃ e ∈ ds, e.building = b ∧ ∃ t, e.t = some t ∧ dayOf t ≤ d) ∧
       (∃ e ∈ ds, e.building = b ∧ ∃ t, e.t = some t ∧ d ≤ dayOf t)))
    ∧ ((calculate_daily_totals ds).filter
        (fun r => r.building == b && r.day == some d)).length ≤ 1 := by
  constructor
  · constructor
    · rintro ⟨v, hv⟩
      obtain ⟨hb, hq⟩ := (mem_daily ds (DailyRow.mk b (some d) v)).mp hv
      have hq2 := (mem_some_dailyRowsFor (natKwhOf ds b) (timedOf ds b) d v).mp hq
      obtain ⟨⟨p1, hp1, h1⟩, ⟨p2, hp2, h2⟩⟩ :=
        (mem_dayBinsFor_iff (timedOf ds b) d).mp ⟨v, hq2⟩
      obtain ⟨e1, he1, hb1, ht1, hk1⟩ := (mem_timedOf ds b p1).mp hp1
      obtain ⟨e2, he2, hb2, ht2, hk2⟩ := (mem_timedOf ds b p2).mp hp2
      exact ⟨⟨e1, he1, hb1, p1.1, ht1, h1⟩, ⟨e2, he2, hb2, p2.1, ht2, h2⟩⟩
    · rintro ⟨⟨e1, he1, hb1, t1, ht1, hd1⟩, ⟨e2, he2, hb2, t2, ht2, hd2⟩⟩
      have hb : b ∈ buildingsOf ds := (mem_buildingsOf ds b).mpr ⟨e1, he1, hb1⟩
      have hp1 : (t1, e1.kwh) ∈ timedOf ds b :=
        (mem_timedOf ds b (t1, e1.kwh)).mpr ⟨e1, he1, hb1, ht1, rfl⟩
      have hp2 : (t2, e2.kwh) ∈ timedOf ds b :=
        (mem_timedOf ds b (t2, e2.kwh)).mpr ⟨e2, he2, hb2, ht2, rfl⟩
      obtain ⟨v, hv⟩ := (mem_dayBinsFor_iff (timedOf ds b) d).mpr
        ⟨⟨(t1, e1.kwh), hp1, hd1⟩, ⟨(t2, e2.kwh), hp2, hd2⟩⟩
      have hv2 := (mem_some_dailyRowsFor (natKwhOf ds b) (timedOf ds b) d v).mpr hv
      exact ⟨v, (mem_daily ds (DailyRow.mk b (some d) v)).mpr ⟨hb, hv2⟩⟩
  · have hcong : (calculate_daily_totals ds).filter
          (fun r => r.building == b && r.day == some d)
        = ((calculate_daily_totals ds).filter (fun r => r.building == b)).filter
            (fun r => r.day == some d) := by
      rw [List.filter_filter]
      exact List.filter_congr (fun r _ => by rw [Bool.and_comm])
    rw [hcong]
    unfold calculate_daily_totals
    have hkey : ∀ (b' : String) (r : DailyRow),
        r ∈ (dailyRowsFor (natKwhOf ds b') (timedOf ds b')).map
          (fun p => DailyRow.mk b' p.1 p.2) →
        r.building = b' := by
      intro b' r hr
      obtain ⟨p, _, hp⟩ := List.mem_map.mp hr
      rw [← hp]
    rw [filter_flatMap_key (fun r : DailyRow => r.building) (buildingsOf ds)
      (fun b' => (dailyRowsFor (natKwhOf ds b') (timedOf ds b')).map
        (fun p => DailyRow.mk b' p.1 p.2))
      (nodup_buildingsOf ds) hkey b]
    by_cases hb : b ∈ buildingsOf ds
    · rw [if_pos hb]
      refine length_filter_le_one (fun r : DailyRow => r.day) _ (some d) ?_
      rw [List.map_map]
      have hc : ((fun r : DailyRow => r.day) ∘ fun p : Option Int × ℚ => DailyRow.mk b p.1 p.2)
          = fun p : Option Int × ℚ => p.1 := rfl
      rw [hc]
      have := nodup_dailyRowsFor_fst (natKwhOf ds b) (timedOf ds b)
      simpa using this
    · rw [if_neg hb]
      simp

/-- C2 (evaluation at the failing input): `resample("W-MON")` bins end on
Monday and are right-closed, against the source comment and the claim.
2025-01-06 is a Monday (`wdMon = 0`) and 2025-01-12 the following Sunday
(`wdMon = 6`); the weekly aggregate of `exC2` puts the Monday reading in
the bin labelled 2025-01-06 and the Sunday reading in the distinct bin
labelled 2025-01-13, whereas the claim requires both readings in the one
bucket starting Monday 2025-01-06. -/
theorem c2_wmon_bucket_eval :
    wdMon (daysFromCivil 2025 1 6) = 0
    ∧ wdMon (daysFromCivil 2025 1 12) = 6
    ∧ (calculate_weekly_aggregates exC2).map (fun r => (r.building, r.week))
        = [("admin", some (daysFromCivil 2025 1 6)), ("admin", some (daysFromCivil 2025 1 13))]
    ∧ wmonLabel (daysFromCivil 2025 1 12) = daysFromCivil 2025 1 13
    ∧ wmonLabel (daysFromCivil 2025 1 6) = daysFromCivil 2025 1 6 := by
  decide

/-- C3 (counterexample): the claim says an unparseable textual timestamp
becomes the missing sentinel instead of aborting; on `exC3` (one row with
timestamp text `"not-a-date"`) `preprocess` raises — it returns the
`to_datetime` error, aborting the run, and produces no dataset at all. -/
theorem c3_sentinel_counterexample :
    preprocess exC3 = Except.error "could not parse timestamp: not-a-date" := by
  rfl

/-- C3 (amended): timestamp normalization errors exactly when some row
carries a textual timestamp that fails to parse (`errors="raise"`
semantics of line 62); it never coerces bad text to a sentinel.  A run
with only parseable (or NaN) timestamp cells succeeds. -/
theorem c3_unparseable_timestamp_raises (rs : List Reading) :
    (∃ m, preprocess rs = Except.error m) ↔
      (∃ r ∈ rs, ∃ s, r.timestamp = some s ∧ parseTimestamp s = none) := by
  have hmem : (∃ c ∈ rs.map (fun r => r.timestamp), ∃ s, c = some s ∧ parseTimestamp s = none)
      ↔ (∃ r ∈ rs, ∃ s, r.timestamp = some s ∧ parseTimestamp s = none) := by
    constructor
    · rintro ⟨c, hc, s, hcs, hps⟩
      obtain ⟨r, hr, hrc⟩ := List.mem_map.mp hc
      exact ⟨r, hr, s, by rw [hrc, hcs], hps⟩
    · rintro ⟨r, hr, s, hrs, hps⟩
      exact ⟨r.timestamp, List.mem_map.mpr ⟨r, hr, rfl⟩, s, hrs, hps⟩
  rw [← hmem, ← to_datetime_error_iff]
  unfold preprocess
  cases h : to_datetime (rs.map (fun r => r.timestamp)) with
  | error m => simp [h]
  | ok v => simp [h]

/-- C4: a `kwh` cell whose text does not parse as a number is ingested as
the missing sentinel `none` (not zero, not an error); the daily and weekly
tables are unchanged when every missing value is replaced by zero (so
missing values contribute nothing to any bucket sum); and the summary mean
divides by the number of PRESENT values only (`NaN` when none are
present), so the sentinel is excluded from means rather than averaged in
as zero. -/
theorem c4_missing_kwh_excluded (pth nm stm ts s : String) (ds : List Entry) (b : String)
    (hs : parseNum s = none) :
    ((processFile (RawFile.mk pth nm stm (.frame ["timestamp", "kwh"] [[some ts, some s]]))).1
        = some [Reading.mk (some ts) none (buildingOf stm) (monthOf stm)])
    ∧ calculate_daily_totals (zfill ds) = calculate_daily_totals ds
    ∧ calculate_weekly_aggregates (zfill ds) = calculate_weekly_aggregates ds
    ∧ (∀ r, summaryFor ds b = some r →
        r.total = (kwhValsOf ds b).sum
        ∧ (kwhValsOf ds b ≠ [] →
            r.mean = some ((kwhValsOf ds b).sum / ((kwhValsOf ds b).length : ℚ)))) := by
  refine ⟨?_, zfill_daily ds, zfill_weekly ds, ?_⟩
  · simp [processFile, repairSingleColumn, getCellJ, idxOf, hs]
  · intro r hr
    have hmem := List.mem_of_find?_eq_some hr
    have hpred := List.find?_some hr
    obtain ⟨b', hb', hmk⟩ := List.mem_map.mp hmem
    have hbb : b' = b := by
      rw [← hmk] at hpred
      simpa using hpred
    subst hbb
    constructor
    · rw [← hmk]
    · intro hne
      rw [← hmk]
      show omean (kwhValsOf ds b') = some _
      cases hks : kwhValsOf ds b' with
      | nil => exact absurd hks hne
      | cons a l => rfl

/-- C4 (witness): at `s = "N/A"` and the concrete dataset `exC4` the
theorem's conclusion holds with every hypothesis discharged: the
non-numeric cell ingests as the sentinel, zero-filling changes no daily or
weekly table, and the summary mean of `admin` divides its total by the
two present readings. -/
theorem c4_missing_kwh_excluded_witness :
    ((processFile (RawFile.mk "data/admin_2025-01.csv" "admin_2025-01.csv" "admin_2025-01"
        (.frame ["timestamp", "kwh"] [[some "2025-01-01T00:00:00", some "N/A"]]))).1
      = some [Reading.mk (some "2025-01-01T00:00:00") none
          (buildingOf "admin_2025-01") (monthOf "admin_2025-01")])
    ∧ calculate_daily_totals (zfill exC4) = calculate_daily_totals exC4
    ∧ calculate_weekly_aggregates (zfill exC4) = calculate_weekly_aggregates exC4
    ∧ (SummaryRow.mk "admin" (omean (kwhValsOf exC4 "admin")) (ominimum (kwhValsOf exC4 "admin"))
        (omaximum (kwhValsOf exC4 "admin")) (kwhValsOf exC4 "admin").sum).total
      = (kwhValsOf exC4 "admin").sum
    ∧ (SummaryRow.mk "admin" (omean (kwhValsOf exC4 "admin")) (ominimum (kwhValsOf exC4 "admin"))
        (omaximum (kwhValsOf exC4 "admin")) (kwhValsOf exC4 "admin").sum).mean
      = some ((kwhValsOf exC4 "admin").sum / ((kwhValsOf exC4 "admin").length : ℚ)) := by
  have h := c4_missing_kwh_excluded "data/admin_2025-01.csv" "admin_2025-01.csv" "admin_2025-01"
    "2025-01-01T00:00:00" "N/A" exC4 "admin" (by decide)
  have hsum := summaryFor_eq exC4 "admin" (by decide)
  exact ⟨h.1, h.2.1, h.2.2.1, (h.2.2.2 _ hsum).1, (h.2.2.2 _ hsum).2 (by decide)⟩

/-- C5: the single-column repair fires exactly when the frame has one
column whose name has both `"timestamp"` and `"kwh"` as substrings (such
a name can be neither required column, so neither is already present);
values are stripped of surrounding double quotes and split on the first
comma — the quoted combined cell of the claim splits into
`timestamp="2025-01-01T00:00:00"`, `kwh="3.5"` — and a one-column file
whose name lacks a substring is logged as invalid-columns with no rows. -/
theorem c5_single_column_repair (cols : List String) (rows rows2 : List (List (Option String)))
    (f : RawFile) (c : String) (hf : f.read = .frame [c] rows2)
    (hnb : ¬(containsSub c "timestamp" = true ∧ containsSub c "kwh" = true)) :
    (repairSingleColumn cols rows ≠ (cols, rows) ↔
      ∃ c', cols = [c'] ∧ containsSub c' "timestamp" = true ∧ containsSub c' "kwh" = true
        ∧ "timestamp" ∉ cols ∧ "kwh" ∉ cols)
    ∧ repairSingleColumn ["timestamp,kwh"] [[some "\"2025-01-01T00:00:00,3.5\""]]
        = (["timestamp", "kwh"], [[some "2025-01-01T00:00:00", some "3.5"]])
    ∧ processFile f = (none, ["Invalid columns in " ++ f.name]) := by
  refine ⟨repair_trigger_iff cols rows, by decide, ?_⟩
  have hb : (containsSub c "timestamp" && containsSub c "kwh") = false := by
    cases h1 : containsSub c "timestamp" <;> cases h2 : containsSub c "kwh" <;> simp_all
  obtain ⟨p, n, st, rd⟩ := f
  simp only at hf
  subst hf
  simp [processFile, repair_no_trigger c rows2 hb]
  intro h1 h2
  rw [← h1] at h2
  exact absurd h2 (by decide)

/-- C5 (witness): at the concrete combined-column header the repair fires
and splits the quoted cell as the claim requires, and the one-column file
`exC5` (header `data`) is rejected as invalid-columns. -/
theorem c5_single_column_repair_witness :
    repairSingleColumn ["timestamp,kwh"] [[some "\"2025-01-01T00:00:00,3.5\""]]
        ≠ (["timestamp,kwh"], [[some "\"2025-01-01T00:00:00,3.5\""]])
    ∧ repairSingleColumn ["timestamp,kwh"] [[some "\"2025-01-01T00:00:00,3.5\""]]
        = (["timestamp", "kwh"], [[some "2025-01-01T00:00:00", some "3.5"]])
    ∧ processFile exC5 = (none, ["Invalid columns in single_2025-01.csv"]) := by
  have h := c5_single_column_repair ["timestamp,kwh"] [[some "\"2025-01-01T00:00:00,3.5\""]]
    [[some "x"]] exC5 "data" rfl (by decide)
  exact ⟨h.1.mpr ⟨"timestamp,kwh", rfl, by decide, by decide, by decide, by decide⟩,
    h.2.1, h.2.2⟩

/-- C6 (counterexample): the vanished file is logged as
`"Missing file: <path>"` with a capital M, not the claim's literal
`"missing file: <path>"` (and likewise `Error reading` / `Invalid
columns`). -/
theorem c6_message_case_counterexample :
    processFile exC6 = (none, ["Missing file: data/gone_2025-01.csv"])
    ∧ "Missing file: data/gone_2025-01.csv" ≠ "missing file: data/gone_2025-01.csv" := by
  constructor
  · rfl
  · decide

/-- C6 (amended): a file that is missing, unreadable, or lacks a required
column after repair contributes no rows, appends exactly one message to
the log — `"Missing file: <path>"`, `"Error reading <name>: <message>"`
or `"Invalid columns in <name>"` — and the remaining files are processed
exactly as if the bad file were absent; if any other file survives
validation, ingestion still returns successfully. -/
theorem c6_per_file_isolation (fs1 fs2 : List RawFile) (f : RawFile) (msg : String)
    (h : (f.read = .missing ∧ msg = "Missing file: " ++ f.path) ∨
         (∃ m, f.read = .failure m ∧ msg = "Error reading " ++ f.name ++ ": " ++ m) ∨
         (∃ cols rows, f.read = .frame cols rows ∧
            ((repairSingleColumn cols rows).1.contains "timestamp"
              && (repairSingleColumn cols rows).1.contains "kwh") = false ∧
            msg = "Invalid columns in " ++ f.name)) :
    loadLoop (fs1 ++ f :: fs2) = ((loadLoop (fs1 ++ fs2)).1,
      (loadLoop fs1).2 ++ msg :: (loadLoop fs2).2)
    ∧ ((∃ g ∈ fs1 ++ fs2, (processFile g).1 ≠ none) →
        load_all_csvs (fs1 ++ f :: fs2)
          = Except.ok ((loadLoop (fs1 ++ fs2)).1.flatten,
              (loadLoop fs1).2 ++ msg :: (loadLoop fs2).2)) := by
  have hpf := processFile_bad f msg h
  have hmain : loadLoop (fs1 ++ f :: fs2) = ((loadLoop (fs1 ++ fs2)).1,
      (loadLoop fs1).2 ++ msg :: (loadLoop fs2).2) := by
    induction fs1 with
    | nil =>
      simp only [List.nil_append, loadLoop, hpf]
      rfl
    | cons g gs ih =>
      simp only [List.cons_append, loadLoop, List.append_eq]
      rw [ih]
      simp [List.append_assoc]
  refine ⟨hmain, ?_⟩
  rintro ⟨g, hg, hgood⟩
  cases hd : (processFile g).1 with
  | none => exact absurd hd hgood
  | some d =>
    have hmem : d ∈ (loadLoop (fs1 ++ fs2)).1 := mem_loadLoop_good (fs1 ++ fs2) g d hg hd
    have hne : (loadLoop (fs1 ++ fs2)).1.isEmpty = false :=
      List.isEmpty_eq_false_iff_exists_mem.mpr ⟨d, hmem⟩
    simp only [load_all_csvs, hmain]
    rw [hne]
    rfl

/-- C6 (witness): with the vanished file `exC6` followed by the valid
file `exC7`, the run logs exactly one `Missing file` message, the dataset
is what `exC7` alone produces, and ingestion returns `ok`. -/
theorem c6_per_file_isolation_witness :
    loadLoop [exC6, exC7] = ((loadLoop [exC7]).1,
      (loadLoop ([] : List RawFile)).2 ++ "Missing file: data/gone_2025-01.csv" :: (loadLoop [exC7]).2)
    ∧ load_all_csvs [exC6, exC7]
        = Except.ok ((loadLoop [exC7]).1.flatten,
            (loadLoop ([] : List RawFile)).2 ++ "Missing file: data/gone_2025-01.csv" :: (loadLoop [exC7]).2) := by
  have h := c6_per_file_isolation [] [exC7] exC6 "Missing file: data/gone_2025-01.csv"
    (Or.inl ⟨rfl, rfl⟩)
  exact ⟨h.1, h.2 ⟨exC7, by decide, by decide⟩⟩

/-- C7 (counterexample): the claim says ingestion raises whenever zero
files contributed rows.  `exC7` passes validation with zero data rows, so
`all_rows` is non-empty, no error is raised, and the returned combined
dataset is empty — zero rows were contributed yet ingestion returns
normally. -/
theorem c7_empty_frame_counterexample :
    load_all_csvs [exC7] = Except.ok ([], [])
    ∧ (processFile exC7).1 = some [] := by
  exact ⟨rfl, rfl⟩

/-- C7 (amended): `load_all_csvs` raises the fatal
`"No valid CSV files found in data directory."` exactly when no file
survives the validation gate (is appended to `all_rows`); a surviving
file with zero data rows counts, so the dataset may be empty without the
fatal error, and otherwise the combined dataset is returned normally. -/
theorem c7_fatal_iff_no_file_survives (files : List RawFile) :
    load_all_csvs files = Except.error "No valid CSV files found in data directory." ↔
      ∀ f ∈ files, (processFile f).1 = none := by
  unfold load_all_csvs
  rw [← loadLoop_nil_iff]
  by_cases h : (loadLoop files).1 = []
  · simp [h, List.isEmpty_iff]
  · simp [List.isEmpty_iff, h]

/-- C8: splitting a stem on `_` always yields at least one token; the
building tag is the first token and the month tag is the last token when
more than one exists, `"Unknown"` otherwise; and every reading a file
contributes carries exactly these two tags. -/
theorem c8_filename_tagging (f : RawFile) (rs : List Reading)
    (h : (processFile f).1 = some rs) :
    (∃ hd tl, name_parts f.stem = hd :: tl ∧ buildingOf f.stem = hd
      ∧ monthOf f.stem = (if tl = [] then "Unknown" else (hd :: tl).getLastD "Unknown"))
    ∧ ∀ r ∈ rs, r.building = buildingOf f.stem ∧ r.month = monthOf f.stem := by
  constructor
  · cases hnp : name_parts f.stem with
    | nil => exact absurd hnp (name_parts_ne_nil f.stem)
    | cons hd tl =>
      refine ⟨hd, tl, rfl, ?_, ?_⟩
      · unfold buildingOf
        rw [hnp]
        simp
      · unfold monthOf
        rw [hnp]
        cases tl with
        | nil => simp
        | cons a as => simp
  · obtain ⟨p, n, st, rd⟩ := f
    cases rd with
    | missing => simp [processFile] at h
    | failure m => simp [processFile] at h
    | frame cols rows =>
      simp only [processFile] at h
      split at h
      · injection h with h2
        intro r hrr
        rw [← h2] at hrr
        obtain ⟨row, _, hrow⟩ := List.mem_map.mp hrr
        rw [← hrow]
        exact ⟨rfl, rfl⟩
      · simp at h

/-- C8 (witness): the file `exC8` with stem `admin_block_2025-01` tags its
single surviving reading with building `admin` (first token) and month
`2025-01` (last token). -/
theorem c8_filename_tagging_witness :
    ("admin" = buildingOf "admin_block_2025-01")
    ∧ ("2025-01" = monthOf "admin_block_2025-01") := by
  have h := c8_filename_tagging exC8
    [Reading.mk (some "2025-01-01") none "admin" "2025-01"] (by decide)
  have hr := h.2 (Reading.mk (some "2025-01-01") none "admin" "2025-01")
    (List.mem_cons_self _ _)
  exact ⟨hr.1, hr.2⟩

/-- C9: for every normalized dataset and every building appearing in it,
the summary row reports as `total` precisely the sum of that building's
`kwh` sums across all rows of the daily-totals table — the calendar-day
rows and, when the building has `NaT`-indexed readings, the `NaT`-labelled
row that carries their sum. -/
theorem c9_total_crosscheck (ds : List Entry) (b : String)
    (h2 : b ∈ buildingsOf ds) :
    summaryFor ds b = some (SummaryRow.mk b (omean (kwhValsOf ds b))
      (ominimum (kwhValsOf ds b)) (omaximum (kwhValsOf ds b))
      ((((calculate_daily_totals ds).filter (fun x => x.building == b)).map
        (fun x => x.kwh)).sum)) := by
  have htot : (((calculate_daily_totals ds).filter (fun x => x.building == b)).map
      (fun x => x.kwh)).sum = (kwhValsOf ds b).sum := by
    unfold calculate_daily_totals
    have hkey : ∀ (b' : String) (r : DailyRow),
        r ∈ (dailyRowsFor (natKwhOf ds b') (timedOf ds b')).map
          (fun p => DailyRow.mk b' p.1 p.2) →
        r.building = b' := by
      intro b' r hr
      obtain ⟨p, _, hp⟩ := List.mem_map.mp hr
      rw [← hp]
    rw [filter_flatMap_key (fun r : DailyRow => r.building) (buildingsOf ds)
      (fun b' => (dailyRowsFor (natKwhOf ds b') (timedOf ds b')).map
        (fun p => DailyRow.mk b' p.1 p.2))
      (nodup_buildingsOf ds) hkey b, if_pos h2, List.map_map]
    have hcomp : ((fun x : DailyRow => x.kwh) ∘ fun p : Option Int × ℚ => DailyRow.mk b p.1 p.2)
        = fun p : Option Int × ℚ => p.2 := rfl
    rw [hcomp, dailyRowsFor_sum, dayBinsFor_sum]
    exact nsum_nat_timed_split (entriesOf ds b)
  rw [summaryFor_eq ds b h2, htot]

/-- C9 (witness): on the concrete dataset `exC1` the cross-check equation
holds for building `admin` with both hypotheses discharged. -/
theorem c9_total_crosscheck_witness :
    summaryFor exC1 "admin" = some (SummaryRow.mk "admin" (omean (kwhValsOf exC1 "admin"))
      (ominimum (kwhValsOf exC1 "admin")) (omaximum (kwhValsOf exC1 "admin"))
      ((((calculate_daily_totals exC1).filter (fun x => x.building == "admin")).map
        (fun x => x.kwh)).sum)) :=
  c9_total_crosscheck exC1 "admin" (by decide)

/-- C10: a building present in the dataset all of whose `kwh` values are
the missing sentinel gets a summary row with `NaN` (`none`) mean, min and
max, and total `0.0` — the fallback pandas's nan-skipping aggregation
implements. -/
theorem c10_all_missing_building (ds : List Entry) (b : String)
    (h1 : b ∈ buildingsOf ds) (h2 : ∀ e ∈ entriesOf ds b, e.kwh = none) :
    summaryFor ds b = some (SummaryRow.mk b none none none 0) := by
  have hk : kwhValsOf ds b = [] := by
    unfold kwhValsOf
    exact List.filterMap_eq_nil_iff.mpr h2
  rw [summaryFor_eq ds b h1, hk]
  rfl

/-- C10 (witness): the all-missing building `vacant` of `exC10` reports
`none` mean, min and max with total `0`. -/
theorem c10_all_missing_building_witness :
    summaryFor exC10 "vacant" = some (SummaryRow.mk "vacant" none none none 0) :=
  c10_all_missing_building exC10 "vacant" (by decide) (by decide)

end Lab5
